import Mathlib

/-!
Shallow embedding of the FileSharingApp repository (a Tkinter front end for
Google Drive built on PyDrive), restricted to the parts with real logic:

* `src/models/data_models.py` — `FileItem` (with its `__post_init__`
  validation), `UploadProgress`, `NavigationState`;
* `src/gui/main_window.py` — the navigation transitions
  (`_navigate_to_folder`, `_go_back`, `_go_home`) and the batch loops of
  `_perform_file_upload` / `_perform_download` / `_perform_deletion`;
* `src/utils/helpers.py` — `ProgressTracker`;
* `src/core/gdrive_manager.py` — `list_files` and `upload_folder_recursive`.

Remote calls are modelled by their observable events; per-item outcomes of
remote calls are oracle functions.  Python float percentages are modelled as
exact rationals (the arithmetic involved is exact division by the item
count).  Python lists used as stacks (append / pop at the end) are modelled
as Lean lists with the top at the end, matching the source's orientation.
-/

namespace FileSharing

/-- Model of `FileItem` from `src/models/data_models.py` (field for field; `size` is a
Python `int`, hence `Int`). -/
structure FileItem where
  id : String
  title : String
  size : Int
  modified_date : String
  mime_type : String
  is_folder : Bool
  parent_id : String
deriving Repr, DecidableEq

/-- Construction of a `FileItem`, including the `__post_init__` validation:
`raise ValueError` when `id` or `title` is falsy (the empty string). -/
def mkFileItem (id title : String) (size : Int) (modified_date mime_type : String)
    (is_folder : Bool) (parent_id : String) : Except String FileItem :=
  if id = "" then .error "File ID cannot be empty"
  else if title = "" then .error "File title cannot be empty"
  else .ok { id := id, title := title, size := size, modified_date := modified_date,
             mime_type := mime_type, is_folder := is_folder, parent_id := parent_id }

/-- Model of `UploadProgress` from `src/models/data_models.py`. -/
structure UploadProgress where
  current_file : String
  completed : Int
  total : Int
  status : String
deriving Repr, DecidableEq

/-- Property `UploadProgress.percentage`: `0.0` when `total == 0`, else
`completed / total * 100.0`. -/
def UploadProgress.percentage (u : UploadProgress) : Rat :=
  if u.total = 0 then 0 else (u.completed : Rat) / (u.total : Rat) * 100

/-- Model of `NavigationState` from `src/models/data_models.py`; the history is a
Python list used as a stack via `append` / `pop`, so the top is the last
element. -/
structure NavigationState where
  current_folder_id : String
  current_folder_name : String
  history : List (String × String)
deriving Repr, DecidableEq

/-- Model of `_navigate_to_folder` in `src/gui/main_window.py`: append the current
`(id, name)` pair to the history, then install the target as current. -/
def navigate_to_folder (s : NavigationState) (folder_id folder_name : String) :
    NavigationState :=
  { current_folder_id := folder_id,
    current_folder_name := folder_name,
    history := s.history ++ [(s.current_folder_id, s.current_folder_name)] }

/-- Model of `_go_back` in `src/gui/main_window.py`: return unchanged when the history
is empty, otherwise `pop()` the last pair and install it as current. -/
def go_back (s : NavigationState) : NavigationState :=
  match s.history.getLast? with
  | none => s
  | some p =>
    { current_folder_id := p.1,
      current_folder_name := p.2,
      history := s.history.dropLast }

/-- Model of `_go_home` in `src/gui/main_window.py`: clear the history and return to
the root sentinel. -/
def go_home (_s : NavigationState) : NavigationState :=
  { current_folder_id := "root", current_folder_name := "Root", history := [] }

/-- Model of `ProgressTracker` from `src/utils/helpers.py` (the wall-clock
`start_time` field is dropped: no claim mentions elapsed time). -/
structure ProgressTracker where
  total_items : Int
  completed_items : Int
  current_item : String
  errors : List String
deriving Repr, DecidableEq

/-- Constructor `ProgressTracker.__init__(total_items)`. -/
def ProgressTracker.init (total : Int) : ProgressTracker :=
  { total_items := total, completed_items := 0, current_item := "", errors := [] }

/-- Method `ProgressTracker.update(completed, current_item)`: overwrite the counter
with the supplied value (no clamping in the source). -/
def ProgressTracker.update (t : ProgressTracker) (completed : Int)
    (current_item : String) : ProgressTracker :=
  { t with completed_items := completed, current_item := current_item }

/-- Method `ProgressTracker.add_error(error)`: append to the error list. -/
def ProgressTracker.add_error (t : ProgressTracker) (e : String) : ProgressTracker :=
  { t with errors := t.errors ++ [e] }

/-- Property `ProgressTracker.percentage`: `0.0` when `total_items == 0`, else
`completed_items / total_items * 100.0`. -/
def ProgressTracker.percentage (t : ProgressTracker) : Rat :=
  if t.total_items = 0 then 0 else (t.completed_items : Rat) / (t.total_items : Rat) * 100

/-- One mutating call on a `ProgressTracker` (the class has exactly the two
mutators `update` and `add_error`). -/
inductive TrackerOp where
  | update (completed : Int) (current_item : String)
  | addError (e : String)
deriving Repr, DecidableEq

/-- Apply a sequence of mutating calls to a tracker, oldest first. -/
def applyOps (t : ProgressTracker) : List TrackerOp → ProgressTracker
  | [] => t
  | .update c s :: rest => applyOps (t.update c s) rest
  | .addError e :: rest => applyOps (t.add_error e) rest

/-- The `ProgressTracker` states reachable from construction through its
operations. -/
def ReachableTracker (t : ProgressTracker) : Prop :=
  ∃ total ops, t = applyOps (ProgressTracker.init total) ops

/-- Outcome of one remote call inside a batch: `upload_file` /
`download_file` / `delete_file` either return normally or raise. -/
inductive ItemOutcome where
  | ok
  | raise (msg : String)
deriving Repr, DecidableEq

/-- Observable events of one batch run of `_perform_file_upload` (the
`_perform_download` and `_perform_deletion` loops have the same shape):
a `reportStatus` call on the progress dialog, the start of the per-item
remote call, the final success message box, the final error message box. -/
inductive UpEvent where
  | status (label : String) (progress : Rat)
  | attempt (i : Nat) (path : String)
  | success (count : Nat)
  | failure (msg : String)
deriving Repr, DecidableEq

/-- Model of `os.path.basename` for forward-slash paths. -/
def basename (p : String) : String :=
  ((p.splitOn "/").getLast?).getD p

/-- The status label built in `_perform_file_upload`:
`"Uploading: filename (i+1/total)"`. -/
def uploadLabel (path : String) (i total : Nat) : String :=
  "Uploading: " ++ basename path ++ " (" ++ toString (i + 1) ++ "/" ++ toString total ++ ")"

/-- The `for i, file_path in enumerate(file_paths)` loop of
`_perform_file_upload`.  `action i` is the outcome of the remote
`upload_file` call for item `i`; `cancelRead i` is the value of
`progress_dialog.cancelled` read at the top of iteration `i` (the flag is
written by the UI thread, so reads are an oracle indexed by iteration).
Returns the emitted events, the final `uploaded_count`, and the message of
the exception that aborted the loop, if any. -/
def uploadLoop (action : Nat → ItemOutcome) (cancelRead : Nat → Bool) (total : Nat) :
    List String → Nat → Nat → List UpEvent × Nat × Option String
  | [], _, count => ([], count, none)
  | path :: rest, i, count =>
    if cancelRead i then ([], count, none)
    else
      let ev₁ := UpEvent.status (uploadLabel path i total) ((i : Rat) / (total : Rat) * 100)
      let ev₂ := UpEvent.attempt i path
      match action i with
      | .raise m => ([ev₁, ev₂], count, some m)
      | .ok =>
        let r := uploadLoop action cancelRead total rest (i + 1) (count + 1)
        (ev₁ :: ev₂ :: r.1, r.2)

/-- The whole `upload_thread` body of `_perform_file_upload`: run the loop
inside `try`; on an exception show the error box; otherwise, when the
post-loop read of `progress_dialog.cancelled` (`finalCancelled`) is false
and `uploaded_count > 0`, show the success box. -/
def performFileUpload (action : Nat → ItemOutcome) (cancelRead : Nat → Bool)
    (finalCancelled : Bool) (files : List String) : List UpEvent :=
  let total := files.length
  let r := uploadLoop action cancelRead total files 0 0
  match r.2.2 with
  | some m => r.1 ++ [.failure m]
  | none =>
    if !finalCancelled && decide (0 < r.2.1) then r.1 ++ [.success r.2.1] else r.1

/-- Indices of the items whose remote call was started. -/
def attemptsOf (evs : List UpEvent) : List Nat :=
  evs.filterMap fun e => match e with | .attempt i _ => some i | _ => none

/-- The percentages passed to successive `reportStatus` calls, in order. -/
def percentsOf (evs : List UpEvent) : List Rat :=
  evs.filterMap fun e => match e with | .status _ p => some p | _ => none

/-- The events emitted by the first `k` executed iterations of the upload
loop starting at index `i`: a `status` / `attempt` pair per item. -/
def loopEvents (total : Nat) : List String → Nat → Nat → List UpEvent
  | [], _, _ => []
  | _, _, 0 => []
  | path :: rest, i, k + 1 =>
    .status (uploadLabel path i total) ((i : Rat) / (total : Rat) * 100) ::
      .attempt i path :: loopEvents total rest (i + 1) k

/-- Whether a completion-summary success box is shown. -/
def showsSuccess (evs : List UpEvent) : Bool :=
  evs.any fun e => match e with | .success _ => true | _ => false

/-- Whether an error box is shown (the batch aborted with an exception). -/
def showsFailure (evs : List UpEvent) : Bool :=
  evs.any fun e => match e with | .failure _ => true | _ => false

/-- A local directory tree, as `os.walk` sees it: a directory name, its
subdirectories (in listing order) and the names of the files it directly
contains. -/
inductive LocalDir where
  | mk (dname : String) (subdirs : List LocalDir) (files : List String)

/-- Name of the directory. -/
def LocalDir.dname : LocalDir → String
  | .mk n _ _ => n

/-- Model of the relative-path join of `upload_folder_recursive`, namely the
relative-path bookkeeping of `upload_folder_recursive`. -/
def joinRel (rel entry : String) : String :=
  if rel = "." then entry else rel ++ "/" ++ entry

mutual
/-- Model of `os.walk` (top-down, the default): yield `(relative path, subdirectory
names, file names)` for the directory itself, then recursively for each
subdirectory in order.  The relative path of the root is `"."`, matching
`os.path.relpath(root, local_folder)`. -/
def walk (rel : String) : LocalDir → List (String × List String × List String)
  | .mk _ dirs fs =>
    (rel, dirs.map LocalDir.dname, fs) :: walkList rel dirs

/-- The `os.walk` entries of a list of sibling subdirectories, in order. -/
def walkList (rel : String) : List LocalDir → List (String × List String × List String)
  | [] => []
  | d :: ds => walk (joinRel rel d.dname) d ++ walkList rel ds
end

/-- Remote calls made by `upload_folder_recursive`: `create_folder(name,
parent)` returning a fresh id, and `upload_file(path, parent)`.  Files are
identified by their relative path in the local tree. -/
inductive DriveEvent where
  | createFolder (dname : String) (parentId newId : Nat)
  | uploadFile (relPath : String) (parentId : Nat)
deriving Repr, DecidableEq

/-- Running state of the traversal: the remote calls made so far (in
order), the `folder_map` dict from relative local path to created remote
folder id (latest binding first, as dict assignment overwrites), and the
next fresh remote id. -/
structure UFState where
  events : List DriveEvent
  folderMap : List (String × Nat)
  nextId : Nat
deriving Repr, DecidableEq

/-- The `for dir_name in dirs` inner loop: create each subdirectory under
`current_parent_id` (computed once per `os.walk` entry) and record it in
`folder_map`. -/
def processDirs (rel : String) (parentId : Nat) : List String → UFState → UFState
  | [], st => st
  | dname :: rest, st =>
    processDirs rel parentId rest
      { events := st.events ++ [.createFolder dname parentId st.nextId],
        folderMap := (joinRel rel dname, st.nextId) :: st.folderMap,
        nextId := st.nextId + 1 }

/-- The `for file_name in files` inner loop: upload each file under
`current_parent_id`. -/
def processFiles (rel : String) (parentId : Nat) : List String → UFState → UFState
  | [], st => st
  | fname :: rest, st =>
    processFiles rel parentId rest
      { st with events := st.events ++ [.uploadFile (joinRel rel fname) parentId] }

/-- One iteration of the `for root, dirs, files in os.walk(...)` loop:
`current_parent_id = folder_map.get(rel_path, folder_id)`, then the two
inner loops. -/
def processEntry (rootFolderId : Nat) (st : UFState)
    (entry : String × List String × List String) : UFState :=
  let parentId := (st.folderMap.lookup entry.1).getD rootFolderId
  processFiles entry.1 parentId entry.2.2 (processDirs entry.1 parentId entry.2.1 st)

/-- Model of `upload_folder_recursive` in `src/core/gdrive_manager.py`: create the
main folder under `parentId` (fresh id `startId`), seed
seed the folder map with the root relative path bound to that id, then fold the `os.walk`
entries.  The source contains no read of the progress dialog's `cancelled`
flag anywhere in this traversal, so the model takes no cancellation
input. -/
def upload_folder_recursive (tree : LocalDir) (parentId startId : Nat) : UFState :=
  let st0 : UFState :=
    { events := [.createFolder tree.dname parentId startId],
      folderMap := [(".", startId)],
      nextId := startId + 1 }
  (walk "." tree).foldl (processEntry startId) st0

/-- The `upload_thread` body of `_perform_folder_upload` in
`src/gui/main_window.py`: run the full traversal, then read
`progress_dialog.cancelled` once (`finalCancelled`) and show the success
box iff it is false.  Returns the traversal state and whether the success
box is shown. -/
def performFolderUpload (finalCancelled : Bool) (tree : LocalDir)
    (parentId startId : Nat) : UFState × Bool :=
  (upload_folder_recursive tree parentId startId, !finalCancelled)

/-- Parent folder id referenced by a remote call. -/
def DriveEvent.parentOf : DriveEvent → Nat
  | .createFolder _ p _ => p
  | .uploadFile _ p => p

/-- Remote folder ids created by a list of calls. -/
def createdIds (evs : List DriveEvent) : List Nat :=
  evs.filterMap fun e => match e with | .createFolder _ _ i => some i | _ => none

/-- Parent-before-child discipline, relative to a set of already-created
folder ids: each remote call in turn is made either under the externally
supplied destination folder or under a folder created earlier (by a
previous call of the traversal or accumulated in `created`). -/
def WellParentedFrom (external : Nat) (created : List Nat) : List DriveEvent → Prop
  | [] => True
  | e :: rest =>
    (e.parentOf = external ∨ e.parentOf ∈ created) ∧
      WellParentedFrom external (created ++ createdIds [e]) rest

/-- Parent-before-child discipline of a whole traversal: every remote call
is made either under the externally supplied destination folder or under a
folder created by an earlier call of the same traversal. -/
def WellParented (external : Nat) (evs : List DriveEvent) : Prop :=
  WellParentedFrom external [] evs

/-- Invariant of the traversal state: the root folder of the upload was
created, every folder id recorded in `folder_map` was created, and the
calls made so far respect the parent-before-child discipline. -/
def UFInv (external rootId : Nat) (st : UFState) : Prop :=
  rootId ∈ createdIds st.events ∧
  (∀ pv ∈ st.folderMap, pv.2 ∈ createdIds st.events) ∧
  WellParented external st.events

/-- What the PyDrive listing returns for one entry before conversion:
`f['id']`, `f['title']`, `f.get('fileSize', 0)`, `f.get('modifiedDate',
'')`, `f.get('mimeType', '')`. -/
structure RawEntry where
  id : String
  title : String
  fileSize : Int
  modifiedDate : String
  mimeType : String
deriving Repr, DecidableEq

/-- The folder sentinel mime type. -/
def folderMimeType : String := "application/vnd.google-apps.folder"

/-- The `FileItem(...)` construction inside `list_files` (the `except
ValueError: continue` of the source corresponds to dropping the `error`
case). -/
def rawToItem (parent_id : String) (f : RawEntry) : Except String FileItem :=
  mkFileItem f.id f.title f.fileSize f.modifiedDate f.mimeType
    (f.mimeType = folderMimeType) parent_id

/-- Python booleans compare as integers: `False < True`. -/
def boolNat (b : Bool) : Nat := if b then 1 else 0

/-- The comparator induced by `key=lambda x: (not x.is_folder,
x.title.lower())`: lexicographic on the pair. -/
def fileSortLE (a b : FileItem) : Bool :=
  decide (boolNat (!a.is_folder) < boolNat (!b.is_folder) ∨
    (boolNat (!a.is_folder) = boolNat (!b.is_folder) ∧ a.title.toLower ≤ b.title.toLower))

/-- Model of `list_files` in `src/core/gdrive_manager.py`, from the raw listing on:
convert each raw entry, skipping those whose construction raises
`ValueError`, then `items.sort(key=lambda x: (not x.is_folder,
x.title.lower()))`. -/
def list_files (parent_id : String) (raw : List RawEntry) : List FileItem :=
  let items := raw.filterMap fun f => (rawToItem parent_id f).toOption
  items.mergeSort fileSortLE

/-! ## Theorems -/

/-- C8: constructing a `FileItem` succeeds exactly when both `id` and
`title` are non-empty; the remaining fields (size, modified date, mime
type, folder flag, parent id) are universally quantified, so none of them
can make construction fail. -/
theorem fileItem_validation_spec (id title : String) (size : Int)
    (md mt : String) (isf : Bool) (pid : String) :
    (∃ fi, mkFileItem id title size md mt isf pid = .ok fi) ↔
      id ≠ "" ∧ title ≠ "" := by
  unfold mkFileItem
  by_cases h1 : id = "" <;> by_cases h2 : title = "" <;> simp [h1, h2]

/-- C7: `_go_back` after `_navigate_to_folder` restores the navigation
state exactly: current folder id, current folder name and the history
stack (in particular an initially empty history is empty again). -/
theorem navigate_then_back (s : NavigationState) (fid fname : String) :
    go_back (navigate_to_folder s fid fname) = s := by
  unfold navigate_to_folder go_back
  simp [List.getLast?_concat, List.dropLast_concat]

/-- C9: `_go_back` is a no-op on an empty history; on a non-empty history
it pops exactly the last (top) pair and installs it as the current
location, leaving the rest of the history unchanged. -/
theorem go_back_frame_spec (s : NavigationState) :
    (s.history = [] → go_back s = s) ∧
    (∀ h fid fname, s.history = h ++ [(fid, fname)] →
      go_back s = { current_folder_id := fid, current_folder_name := fname,
                    history := h }) := by
  constructor
  · intro he
    simp [go_back, he]
  · intro h fid fname he
    simp [go_back, he, List.getLast?_concat, List.dropLast_concat]

/-- Witness for C9 at concrete inputs: both the empty-history no-op and a
one-element pop. -/
theorem go_back_frame_spec_witness :
    go_back { current_folder_id := "root", current_folder_name := "Root",
              history := [] } =
      { current_folder_id := "root", current_folder_name := "Root",
        history := [] } ∧
    go_back { current_folder_id := "a", current_folder_name := "A",
              history := [("root", "Root")] } =
      { current_folder_id := "root", current_folder_name := "Root",
        history := [] } :=
  ⟨(go_back_frame_spec _).1 rfl, (go_back_frame_spec _).2 [] "root" "Root" rfl⟩

/-- C3 counterexample: the state reached from `ProgressTracker(3)` by the
single call `update(5, "")` is reachable, yet its `completed_items` (5)
exceeds its `total_items` (3) — `update` stores the supplied counter
without clamping. -/
theorem tracker_bound_counterexample :
    ReachableTracker { total_items := 3, completed_items := 5,
                       current_item := "", errors := [] } ∧
    ¬ ((5 : Int) ≤ 3) :=
  ⟨⟨3, [.update 5 ""], rfl⟩, by decide⟩

/-- Neither `update` nor `add_error` touches `total_items`. -/
theorem applyOps_total_items (t : ProgressTracker) (ops : List TrackerOp) :
    (applyOps t ops).total_items = t.total_items := by
  induction ops generalizing t with
  | nil => rfl
  | cons op rest ih =>
    cases op with
    | update c s => simpa [applyOps, ProgressTracker.update] using ih (t.update c s)
    | addError e => simpa [applyOps, ProgressTracker.add_error] using ih (t.add_error e)

/-- If the current counter is within `total` and every `update` in the
sequence supplies a value within `total`, the counter stays within
`total`. -/
theorem applyOps_completed_le (total : Int) (t : ProgressTracker)
    (ops : List TrackerOp) (ht : t.completed_items ≤ total)
    (hops : ∀ c s, TrackerOp.update c s ∈ ops → c ≤ total) :
    (applyOps t ops).completed_items ≤ total := by
  induction ops generalizing t with
  | nil => simpa [applyOps] using ht
  | cons op rest ih =>
    cases op with
    | update c s =>
      exact ih (t.update c s) (hops c s (List.mem_cons_self _ _))
        (fun c' s' h => hops c' s' (List.mem_cons_of_mem _ h))
    | addError e =>
      exact ih (t.add_error e) ht (fun c' s' h => hops c' s' (List.mem_cons_of_mem _ h))

/-- C3 (amended): along every operation sequence from construction, if the
total is non-negative and every `update` call supplies a counter value at
most the total, then `completed_items` never exceeds `total_items`
(`update` itself performs no clamping); and in every reachable state the
percentage is `completed_items / total_items * 100` when `total_items ≠ 0`
and `0` otherwise. -/
theorem tracker_invariant_amended (total : Int) (ops : List TrackerOp)
    (htot : 0 ≤ total)
    (hops : ∀ c s, TrackerOp.update c s ∈ ops → c ≤ total) :
    (applyOps (ProgressTracker.init total) ops).total_items = total ∧
    (applyOps (ProgressTracker.init total) ops).completed_items ≤ total ∧
    (applyOps (ProgressTracker.init total) ops).percentage =
      (if total = 0 then 0
       else ((applyOps (ProgressTracker.init total) ops).completed_items : Rat) /
         (total : Rat) * 100) := by
  have htotal := applyOps_total_items (ProgressTracker.init total) ops
  refine ⟨htotal, applyOps_completed_le total _ ops (by simp [ProgressTracker.init]; exact htot) hops, ?_⟩
  rw [ProgressTracker.percentage, htotal]
  rfl

/-- Witness for C3 (amended) at a concrete run: total 3, an update to 2
and one recorded error. -/
theorem tracker_invariant_amended_witness :
    (applyOps (ProgressTracker.init 3) [.update 2 "x", .addError "e"]).total_items = 3 ∧
    (applyOps (ProgressTracker.init 3) [.update 2 "x", .addError "e"]).completed_items ≤ 3 ∧
    (applyOps (ProgressTracker.init 3) [.update 2 "x", .addError "e"]).percentage =
      (if (3 : Int) = 0 then 0
       else ((applyOps (ProgressTracker.init 3) [.update 2 "x", .addError "e"]).completed_items : Rat) /
         ((3 : Int) : Rat) * 100) :=
  tracker_invariant_amended 3 [.update 2 "x", .addError "e"] (by decide)
    (by
      intro c s h
      simp only [List.mem_cons, List.not_mem_nil, or_false] at h
      rcases h with h | h
      · rcases h with ⟨hc, -⟩
        omega
      · exact absurd h (by simp))

/-- The attempted indices of `k` executed iterations starting at `i` are
`i, i+1, …, i+k-1`. -/
theorem attemptsOf_loopEvents (total : Nat) (rest : List String) (i k : Nat)
    (hk : k ≤ rest.length) :
    attemptsOf (loopEvents total rest i k) = List.range' i k := by
  induction rest generalizing i k with
  | nil =>
    have : k = 0 := Nat.le_zero.mp hk
    subst this
    rfl
  | cons p rest ih =>
    cases k with
    | zero => rfl
    | succ k =>
      simp only [loopEvents, attemptsOf, List.filterMap_cons, List.range'_succ]
      simpa [attemptsOf] using ih (i + 1) k (Nat.succ_le_succ_iff.mp hk)

/-- The reported percentages of `k` executed iterations starting at `i`. -/
theorem percentsOf_loopEvents (total : Nat) (rest : List String) (i k : Nat)
    (hk : k ≤ rest.length) :
    percentsOf (loopEvents total rest i k) =
      (List.range' i k).map fun j : Nat => (j : Rat) / (total : Rat) * 100 := by
  induction rest generalizing i k with
  | nil =>
    have : k = 0 := Nat.le_zero.mp hk
    subst this
    rfl
  | cons p rest ih =>
    cases k with
    | zero => rfl
    | succ k =>
      simp only [loopEvents, percentsOf, List.filterMap_cons, List.range'_succ, List.map_cons]
      simpa [percentsOf] using ih (i + 1) k (Nat.succ_le_succ_iff.mp hk)

/-- Executed iterations show neither a success box nor an error box. -/
theorem boxes_loopEvents (total : Nat) (rest : List String) (i k : Nat) :
    showsSuccess (loopEvents total rest i k) = false ∧
    showsFailure (loopEvents total rest i k) = false := by
  induction rest generalizing i k with
  | nil => simp [loopEvents, showsSuccess, showsFailure]
  | cons p rest ih =>
    cases k with
    | zero => simp [loopEvents, showsSuccess, showsFailure]
    | succ k =>
      simpa [loopEvents, showsSuccess, showsFailure] using ih (i + 1) k

/-- When the first `k` iterations read the cancellation flag false and their
remote calls succeed, and the read at iteration `k` (if the loop is not yet
exhausted) is true, the loop performs exactly `k` iterations, raises
nothing, and counts `k` successes. -/
theorem uploadLoop_clean_cancel (action : Nat → ItemOutcome) (cancelRead : Nat → Bool)
    (total : Nat) (rest : List String) (i count k : Nat)
    (hk : k ≤ rest.length)
    (hnc : ∀ j, j < k → cancelRead (i + j) = false)
    (hok : ∀ j, j < k → action (i + j) = .ok)
    (hc : k < rest.length → cancelRead (i + k) = true) :
    uploadLoop action cancelRead total rest i count =
      (loopEvents total rest i k, count + k, none) := by
  induction rest generalizing i count k with
  | nil =>
    have : k = 0 := Nat.le_zero.mp hk
    subst this
    rfl
  | cons p rest ih =>
    cases k with
    | zero =>
      have hcz : cancelRead i = true := by simpa using hc (by simp)
      simp [uploadLoop, hcz, loopEvents]
    | succ k =>
      have h0 : cancelRead i = false := by simpa using hnc 0 (Nat.succ_pos k)
      have ha : action i = .ok := by simpa using hok 0 (Nat.succ_pos k)
      have hrec := ih (i + 1) (count + 1) k (Nat.succ_le_succ_iff.mp hk)
        (fun j hj => by
          have := hnc (j + 1) (Nat.succ_lt_succ hj)
          simpa [Nat.add_assoc, Nat.add_comm 1 j] using this)
        (fun j hj => by
          have := hok (j + 1) (Nat.succ_lt_succ hj)
          simpa [Nat.add_assoc, Nat.add_comm 1 j] using this)
        (fun hlt => by
          have := hc (Nat.succ_lt_succ hlt)
          simpa [Nat.add_assoc, Nat.add_comm 1 k] using this)
      simp only [uploadLoop, h0, ha, Bool.false_eq_true, if_false, hrec, loopEvents,
        Prod.mk.injEq]
      exact ⟨trivial, by omega, trivial⟩

/-- Zero executed iterations emit no events, whatever remains. -/
theorem loopEvents_zero (total : Nat) (rest : List String) (i : Nat) :
    loopEvents total rest i 0 = [] := by
  cases rest <;> simp [loopEvents]

/-- When the first `k` iterations succeed with the flag reading false, the
flag still reads false at iteration `k`, and the remote call of iteration
`k` raises, the loop emits the status/attempt pairs of iterations
`0, …, k`, counts `k` successes, and aborts with the raised message. -/
theorem uploadLoop_first_failure (action : Nat → ItemOutcome) (cancelRead : Nat → Bool)
    (total : Nat) (rest : List String) (i count k : Nat) (m : String)
    (hk : k < rest.length)
    (hnc : ∀ j, j ≤ k → cancelRead (i + j) = false)
    (hok : ∀ j, j < k → action (i + j) = .ok)
    (hfail : action (i + k) = .raise m) :
    uploadLoop action cancelRead total rest i count =
      (loopEvents total rest i (k + 1), count + k, some m) := by
  induction rest generalizing i count k with
  | nil => exact absurd hk (by simp)
  | cons p rest ih =>
    cases k with
    | zero =>
      have h0 : cancelRead i = false := by simpa using hnc 0 (Nat.le_refl 0)
      have ha : action i = .raise m := by simpa using hfail
      simp [uploadLoop, h0, ha, loopEvents, loopEvents_zero]
    | succ k =>
      have h0 : cancelRead i = false := by simpa using hnc 0 (Nat.zero_le _)
      have ha : action i = .ok := by simpa using hok 0 (Nat.succ_pos k)
      have hrec := ih (i + 1) (count + 1) k (Nat.succ_lt_succ_iff.mp hk)
        (fun j hj => by
          have := hnc (j + 1) (Nat.succ_le_succ hj)
          simpa [Nat.add_assoc, Nat.add_comm 1 j] using this)
        (fun j hj => by
          have := hok (j + 1) (Nat.succ_lt_succ hj)
          simpa [Nat.add_assoc, Nat.add_comm 1 j] using this)
        (by
          have : i + (k + 1) = i + 1 + k := by omega
          rw [this] at hfail
          exact hfail)
      simp only [uploadLoop, h0, ha, Bool.false_eq_true, if_false, hrec, loopEvents,
        Prod.mk.injEq]
      exact ⟨trivial, by omega, trivial⟩

/-- The loop always emits events of the shape `loopEvents` for some number
of executed iterations bounded by the remaining item count. -/
theorem uploadLoop_shape (action : Nat → ItemOutcome) (cancelRead : Nat → Bool)
    (total : Nat) (rest : List String) (i count : Nat) :
    ∃ m, m ≤ rest.length ∧
      (uploadLoop action cancelRead total rest i count).1 = loopEvents total rest i m := by
  induction rest generalizing i count with
  | nil => exact ⟨0, Nat.le_refl 0, rfl⟩
  | cons p rest ih =>
    by_cases hc : cancelRead i = true
    · exact ⟨0, Nat.zero_le _, by simp [uploadLoop, hc, loopEvents]⟩
    · have hc' : cancelRead i = false := by simpa using hc
      cases ha : action i with
      | raise m =>
        exact ⟨1, by simp, by simp [uploadLoop, hc', ha, loopEvents, loopEvents_zero]⟩
      | ok =>
        obtain ⟨m, hm, hev⟩ := ih (i + 1) (count + 1)
        refine ⟨m + 1, Nat.succ_le_succ hm, ?_⟩
        simp [uploadLoop, hc', ha, loopEvents, hev]

/-- Function `attemptsOf` distributes over append. -/
theorem attemptsOf_append (l l' : List UpEvent) :
    attemptsOf (l ++ l') = attemptsOf l ++ attemptsOf l' := by
  simp [attemptsOf, List.filterMap_append]

/-- Function `percentsOf` distributes over append. -/
theorem percentsOf_append (l l' : List UpEvent) :
    percentsOf (l ++ l') = percentsOf l ++ percentsOf l' := by
  simp [percentsOf, List.filterMap_append]

/-- The events of a full batch run are the loop's events followed by a tail
(the final message box, if any) containing no status and no attempt. -/
theorem performFileUpload_events (action : Nat → ItemOutcome) (cancelRead : Nat → Bool)
    (finalCancelled : Bool) (files : List String) :
    ∃ tail, performFileUpload action cancelRead finalCancelled files =
        (uploadLoop action cancelRead files.length files 0 0).1 ++ tail ∧
      attemptsOf tail = [] ∧ percentsOf tail = [] := by
  unfold performFileUpload
  cases h2 : (uploadLoop action cancelRead files.length files 0 0).2.2 with
  | some m => exact ⟨[.failure m], by simp [h2], rfl, rfl⟩
  | none =>
    by_cases hb : (!finalCancelled &&
        decide (0 < (uploadLoop action cancelRead files.length files 0 0).2.1)) = true
    · exact ⟨[.success (uploadLoop action cancelRead files.length files 0 0).2.1],
        by simp [h2, hb], rfl, rfl⟩
    · exact ⟨[], by simp [h2, hb], rfl, rfl⟩

/-- C4: when cancellation is requested after `k` items have been processed
(the first `k` iterations read the flag false and their remote calls
succeed, and the read at iteration `k` — if items remain — is true), then
exactly the items `0, …, k-1` are attempted, the remaining items are
skipped without any failure being recorded, and no completion-summary
success box is shown (the post-loop read of the write-once flag is
true). -/
theorem upload_cancellation_spec (action : Nat → ItemOutcome) (cancelRead : Nat → Bool)
    (files : List String) (k : Nat)
    (hk : k ≤ files.length)
    (hnc : ∀ j, j < k → cancelRead j = false)
    (hok : ∀ j, j < k → action j = .ok)
    (hc : k < files.length → cancelRead k = true) :
    attemptsOf (performFileUpload action cancelRead true files) = List.range k ∧
    showsSuccess (performFileUpload action cancelRead true files) = false ∧
    showsFailure (performFileUpload action cancelRead true files) = false := by
  have hloop := uploadLoop_clean_cancel action cancelRead files.length files 0 0 k hk
    (fun j hj => by simpa using hnc j hj)
    (fun j hj => by simpa using hok j hj)
    (fun h => by simpa using hc h)
  have hperf : performFileUpload action cancelRead true files =
      loopEvents files.length files 0 k := by
    unfold performFileUpload
    simp only [hloop]
    simp
  rw [hperf, attemptsOf_loopEvents _ _ _ _ hk, ← List.range_eq_range']
  exact ⟨rfl, (boxes_loopEvents _ _ _ _).1, (boxes_loopEvents _ _ _ _).2⟩

/-- Witness for C4: four items, the flag reads true from iteration 2 on;
items 0 and 1 are attempted, 2 and 3 are skipped, no box is shown. -/
theorem upload_cancellation_spec_witness :
    attemptsOf (performFileUpload (fun _ => ItemOutcome.ok) (fun i => decide (2 ≤ i)) true
      ["a", "b", "c", "d"]) = List.range 2 ∧
    showsSuccess (performFileUpload (fun _ => ItemOutcome.ok) (fun i => decide (2 ≤ i)) true
      ["a", "b", "c", "d"]) = false ∧
    showsFailure (performFileUpload (fun _ => ItemOutcome.ok) (fun i => decide (2 ≤ i)) true
      ["a", "b", "c", "d"]) = false :=
  upload_cancellation_spec (fun _ => ItemOutcome.ok) (fun i => decide (2 ≤ i))
    ["a", "b", "c", "d"] 2 (by decide) (by decide) (fun j _ => rfl) (by decide)

/-- C5: within one batch of `total` items, the percentages passed to
successive status reports are exactly `j / total * 100` for the zero-based
item indices `j = 0, …, m-1` of the attempted items (items started, not
completed: the report for item `j` precedes its remote call); consequently
they are monotonically non-decreasing and never exceed 100. -/
theorem upload_progress_spec (action : Nat → ItemOutcome) (cancelRead : Nat → Bool)
    (finalCancelled : Bool) (files : List String) :
    ∃ m, m ≤ files.length ∧
      attemptsOf (performFileUpload action cancelRead finalCancelled files) = List.range m ∧
      percentsOf (performFileUpload action cancelRead finalCancelled files) =
        (List.range m).map (fun j : Nat => (j : Rat) / (files.length : Rat) * 100) ∧
      (percentsOf (performFileUpload action cancelRead finalCancelled files)).Pairwise (· ≤ ·) ∧
      (∀ q ∈ percentsOf (performFileUpload action cancelRead finalCancelled files), q ≤ 100) := by
  obtain ⟨tail, hperf, hta, htp⟩ :=
    performFileUpload_events action cancelRead finalCancelled files
  obtain ⟨m, hm, hev⟩ := uploadLoop_shape action cancelRead files.length files 0 0
  have hAtt : attemptsOf (performFileUpload action cancelRead finalCancelled files) =
      List.range m := by
    rw [hperf, attemptsOf_append, hev, hta, List.append_nil,
      attemptsOf_loopEvents _ _ _ _ hm, ← List.range_eq_range']
  have hPct : percentsOf (performFileUpload action cancelRead finalCancelled files) =
      (List.range m).map (fun j : Nat => (j : Rat) / (files.length : Rat) * 100) := by
    rw [hperf, percentsOf_append, hev, htp, List.append_nil,
      percentsOf_loopEvents _ _ _ _ hm, ← List.range_eq_range']
  have hmono : ∀ a b : Nat, a < b →
      (a : Rat) / (files.length : Rat) * 100 ≤ (b : Rat) / (files.length : Rat) * 100 := by
    intro a b hab
    rcases Nat.eq_zero_or_pos files.length with h0 | hpos
    · simp [h0]
    · have hq : (0 : Rat) < (files.length : Rat) := by exact_mod_cast hpos
      have hdiv : (a : Rat) / (files.length : Rat) ≤ (b : Rat) / (files.length : Rat) := by
        gcongr
      exact mul_le_mul_of_nonneg_right hdiv (by norm_num)
  refine ⟨m, hm, hAtt, hPct, ?_, ?_⟩
  · rw [hPct, List.pairwise_map]
    exact (List.pairwise_lt_range m).imp (fun hab => hmono _ _ hab)
  · intro q hq
    rw [hPct] at hq
    obtain ⟨j, hj, hqe⟩ := List.mem_map.mp hq
    have hjm : j < m := List.mem_range.mp hj
    have hjN : j < files.length := lt_of_lt_of_le hjm hm
    have hNpos : 0 < files.length := Nat.lt_of_le_of_lt (Nat.zero_le j) hjN
    have hpos : (0 : Rat) < (files.length : Rat) := by exact_mod_cast hNpos
    have hle1 : (j : Rat) / (files.length : Rat) ≤ 1 :=
      (div_le_one hpos).mpr (by exact_mod_cast hjN.le)
    rw [← hqe]
    calc (j : Rat) / (files.length : Rat) * 100 ≤ 1 * 100 :=
          mul_le_mul_of_nonneg_right hle1 (by norm_num)
      _ = 100 := by norm_num

/-- C1 counterexample: three files where the second remote upload raises
and cancellation is never requested.  Contrary to the claim, the batch does
not continue past the failed item: only items 0 and 1 are attempted, and
the remote call for item 2 is never started (the `try` wraps the whole
loop, so the exception aborts the batch and no per-item errors list
exists). -/
theorem batch_abort_counterexample :
    attemptsOf (performFileUpload
      (fun i => if i = 1 then ItemOutcome.raise "boom" else ItemOutcome.ok)
      (fun _ => false) false ["a", "b", "c"]) = [0, 1] ∧
    UpEvent.attempt 2 "c" ∉ performFileUpload
      (fun i => if i = 1 then ItemOutcome.raise "boom" else ItemOutcome.ok)
      (fun _ => false) false ["a", "b", "c"] := by
  constructor
  · rfl
  · decide

/-- C1 (amended): a per-item failure aborts the batch instead of being
appended to an errors list.  If the first `j` items succeed with no
cancellation and the remote call of item `j` raises, then exactly the
items `0, …, j` are attempted (every later item is skipped), a single
batch error box is shown, and no completion-summary success box is
shown. -/
theorem batch_failure_aborts (action : Nat → ItemOutcome) (cancelRead : Nat → Bool)
    (finalCancelled : Bool) (files : List String) (j : Nat) (m : String)
    (hj : j < files.length)
    (hnc : ∀ t, t ≤ j → cancelRead t = false)
    (hok : ∀ t, t < j → action t = .ok)
    (hfail : action j = .raise m) :
    attemptsOf (performFileUpload action cancelRead finalCancelled files) =
      List.range (j + 1) ∧
    showsFailure (performFileUpload action cancelRead finalCancelled files) = true ∧
    showsSuccess (performFileUpload action cancelRead finalCancelled files) = false := by
  have hloop := uploadLoop_first_failure action cancelRead files.length files 0 0 j m hj
    (fun t ht => by simpa using hnc t ht)
    (fun t ht => by simpa using hok t ht)
    (by simpa using hfail)
  have hperf : performFileUpload action cancelRead finalCancelled files =
      loopEvents files.length files 0 (j + 1) ++ [.failure m] := by
    unfold performFileUpload
    simp only [hloop]
  rw [hperf]
  refine ⟨?_, ?_, ?_⟩
  · rw [attemptsOf_append, attemptsOf_loopEvents _ _ _ _ hj, ← List.range_eq_range']
    simp [attemptsOf]
  · simp [showsFailure, List.any_append]
  · have hb := (boxes_loopEvents files.length files 0 (j + 1)).1
    simp only [showsSuccess] at hb ⊢
    simp [List.any_append, hb]

/-- Witness for C1 (amended): item 1 of three raises; items 0 and 1 are
attempted, an error box is shown, no success box. -/
theorem batch_failure_aborts_witness :
    attemptsOf (performFileUpload
      (fun i => if i = 1 then ItemOutcome.raise "denied" else ItemOutcome.ok)
      (fun _ => false) false ["u", "v", "w"]) = List.range 2 ∧
    showsFailure (performFileUpload
      (fun i => if i = 1 then ItemOutcome.raise "denied" else ItemOutcome.ok)
      (fun _ => false) false ["u", "v", "w"]) = true ∧
    showsSuccess (performFileUpload
      (fun i => if i = 1 then ItemOutcome.raise "denied" else ItemOutcome.ok)
      (fun _ => false) false ["u", "v", "w"]) = false :=
  batch_failure_aborts
    (fun i => if i = 1 then ItemOutcome.raise "denied" else ItemOutcome.ok)
    (fun _ => false) false ["u", "v", "w"] 1 "denied"
    (by decide) (fun t _ => rfl) (by decide) (by decide)

/-- Function `createdIds` distributes over append. -/
theorem createdIds_append (l l' : List DriveEvent) :
    createdIds (l ++ l') = createdIds l ++ createdIds l' := by
  simp [createdIds, List.filterMap_append]

/-- Discipline is stable under enlarging the set of already-created ids. -/
theorem wellParentedFrom_mono (external : Nat) (l : List DriveEvent) :
    ∀ c c' : List Nat, (∀ x ∈ c, x ∈ c') →
      WellParentedFrom external c l → WellParentedFrom external c' l := by
  induction l with
  | nil => intro c c' _ _; trivial
  | cons e rest ih =>
    intro c c' hsub h
    obtain ⟨he, hrest⟩ := h
    refine ⟨?_, ih (c ++ createdIds [e]) (c' ++ createdIds [e]) ?_ hrest⟩
    · rcases he with he | he
      · exact Or.inl he
      · exact Or.inr (hsub _ he)
    · intro x hx
      rcases List.mem_append.mp hx with hx | hx
      · exact List.mem_append.mpr (Or.inl (hsub _ hx))
      · exact List.mem_append.mpr (Or.inr hx)

/-- Discipline composes over append of call sequences. -/
theorem wellParentedFrom_append (external : Nat) (l : List DriveEvent) :
    ∀ (c : List Nat) (l' : List DriveEvent),
      WellParentedFrom external c l →
      WellParentedFrom external (c ++ createdIds l) l' →
      WellParentedFrom external c (l ++ l') := by
  induction l with
  | nil =>
    intro c l' _ h2
    simpa [createdIds] using h2
  | cons e rest ih =>
    intro c l' h1 h2
    obtain ⟨he, hrest⟩ := h1
    refine ⟨he, ih (c ++ createdIds [e]) l' hrest ?_⟩
    have : c ++ createdIds (e :: rest) = (c ++ createdIds [e]) ++ createdIds rest := by
      have hsplit : createdIds (e :: rest) = createdIds [e] ++ createdIds rest := by
        simpa using createdIds_append [e] rest
      rw [hsplit, List.append_assoc]
    rwa [this] at h2

/-- A successful association-list lookup returns a recorded value. -/
theorem lookup_mem_snd (m : List (String × Nat)) (k : String) (v : Nat)
    (h : m.lookup k = some v) : ∃ k', (k', v) ∈ m := by
  induction m with
  | nil => simp [List.lookup] at h
  | cons a rest ih =>
    rw [List.lookup] at h
    by_cases hk : (k == a.1) = true
    · simp only [hk] at h
      exact ⟨a.1, by
        have hv : a.2 = v := by simpa using h
        simp [← hv]⟩
    · simp only [Bool.not_eq_true] at hk
      simp only [hk] at h
      obtain ⟨k', hk'⟩ := ih h
      exact ⟨k', List.mem_cons_of_mem _ hk'⟩

/-- Creating the subdirectories of one `os.walk` entry preserves the
traversal invariant when the parent folder id used was created earlier; the
set of created ids only grows. -/
theorem processDirs_inv (external rootId : Nat) (rel : String) (parentId : Nat) :
    ∀ (ds : List String) (st : UFState),
      UFInv external rootId st →
      parentId ∈ createdIds st.events →
      UFInv external rootId (processDirs rel parentId ds st) ∧
      (∀ x ∈ createdIds st.events,
        x ∈ createdIds (processDirs rel parentId ds st).events) := by
  intro ds
  induction ds with
  | nil => intro st hinv _; exact ⟨hinv, fun x hx => hx⟩
  | cons dname rest ih =>
    intro st hinv hp
    obtain ⟨hroot, hmap, hwp⟩ := hinv
    have hcr : createdIds (st.events ++ [DriveEvent.createFolder dname parentId st.nextId]) =
        createdIds st.events ++ [st.nextId] := by
      rw [createdIds_append]; rfl
    have hinv' : UFInv external rootId
        { events := st.events ++ [.createFolder dname parentId st.nextId],
          folderMap := (joinRel rel dname, st.nextId) :: st.folderMap,
          nextId := st.nextId + 1 } := by
      refine ⟨?_, ?_, ?_⟩
      · simp only [hcr]
        exact List.mem_append.mpr (Or.inl hroot)
      · intro pv hpv
        simp only [hcr]
        rcases List.mem_cons.mp hpv with hpv | hpv
        · subst hpv
          simp
        · exact List.mem_append.mpr (Or.inl (hmap pv hpv))
      · exact wellParentedFrom_append external st.events []
          [DriveEvent.createFolder dname parentId st.nextId] hwp
          ⟨Or.inr (by simpa [DriveEvent.parentOf] using hp), trivial⟩
    have hp' : parentId ∈ createdIds
        (st.events ++ [DriveEvent.createFolder dname parentId st.nextId]) := by
      simp only [hcr]
      exact List.mem_append.mpr (Or.inl hp)
    obtain ⟨hfin, hsub⟩ := ih _ hinv' hp'
    refine ⟨by simpa [processDirs] using hfin, ?_⟩
    intro x hx
    have hx' : x ∈ createdIds
        (st.events ++ [DriveEvent.createFolder dname parentId st.nextId]) := by
      simp only [hcr]
      exact List.mem_append.mpr (Or.inl hx)
    simpa [processDirs] using hsub x hx'

/-- Uploading the files of one `os.walk` entry preserves the traversal
invariant when the parent folder id used was created earlier; the set of
created ids is unchanged. -/
theorem processFiles_inv (external rootId : Nat) (rel : String) (parentId : Nat) :
    ∀ (fs : List String) (st : UFState),
      UFInv external rootId st →
      parentId ∈ createdIds st.events →
      UFInv external rootId (processFiles rel parentId fs st) ∧
      (∀ x ∈ createdIds st.events,
        x ∈ createdIds (processFiles rel parentId fs st).events) := by
  intro fs
  induction fs with
  | nil => intro st hinv _; exact ⟨hinv, fun x hx => hx⟩
  | cons fname rest ih =>
    intro st hinv hp
    obtain ⟨hroot, hmap, hwp⟩ := hinv
    have hcr : createdIds (st.events ++ [DriveEvent.uploadFile (joinRel rel fname) parentId]) =
        createdIds st.events := by
      rw [createdIds_append]; simp [createdIds]
    have hinv' : UFInv external rootId
        { st with events := st.events ++ [.uploadFile (joinRel rel fname) parentId] } := by
      refine ⟨by simpa only [hcr] using hroot, ?_, ?_⟩
      · intro pv hpv
        simpa only [hcr] using hmap pv hpv
      · exact wellParentedFrom_append external st.events []
          [DriveEvent.uploadFile (joinRel rel fname) parentId] hwp
          ⟨Or.inr (by simpa [DriveEvent.parentOf] using hp), trivial⟩
    have hp' : parentId ∈ createdIds
        (st.events ++ [DriveEvent.uploadFile (joinRel rel fname) parentId]) := by
      simpa only [hcr] using hp
    obtain ⟨hfin, hsub⟩ := ih _ hinv' hp'
    refine ⟨by simpa [processFiles] using hfin, ?_⟩
    intro x hx
    have hx' : x ∈ createdIds
        (st.events ++ [DriveEvent.uploadFile (joinRel rel fname) parentId]) := by
      simpa only [hcr] using hx
    simpa [processFiles] using hsub x hx'

/-- One full `os.walk` entry preserves the traversal invariant. -/
theorem processEntry_inv (external rootId : Nat)
    (entry : String × List String × List String) (st : UFState)
    (hinv : UFInv external rootId st) :
    UFInv external rootId (processEntry rootId st entry) := by
  have hp : (st.folderMap.lookup entry.1).getD rootId ∈ createdIds st.events := by
    cases hl : st.folderMap.lookup entry.1 with
    | none => simpa [hl] using hinv.1
    | some v =>
      obtain ⟨k', hk'⟩ := lookup_mem_snd _ _ _ hl
      simpa [hl] using hinv.2.1 (k', v) hk'
  obtain ⟨hinv1, hsub1⟩ :=
    processDirs_inv external rootId entry.1 _ entry.2.1 st hinv hp
  obtain ⟨hinv2, _⟩ :=
    processFiles_inv external rootId entry.1 _ entry.2.2 _ hinv1 (hsub1 _ hp)
  exact hinv2

/-- The fold over all `os.walk` entries preserves the invariant. -/
theorem foldl_processEntry_inv (external rootId : Nat) :
    ∀ (entries : List (String × List String × List String)) (st : UFState),
      UFInv external rootId st →
      UFInv external rootId (entries.foldl (processEntry rootId) st) := by
  intro entries
  induction entries with
  | nil => intro st h; exact h
  | cons entry rest ih =>
    intro st h
    exact ih _ (processEntry_inv external rootId entry st h)

/-- C6: in every recursive folder upload, each remote call (create-folder
or upload-file) is made under the externally supplied destination or under
a folder created by an earlier call of the same traversal (a directory's
remote folder is created before any of its children); and on the tree
with root containing `a.txt` and a subdirectory `sub` containing `b.txt`, the traversal creates the `sub` folder
(id 1) before uploading `b.txt` under it, while `a.txt` is uploaded under
the top-level created folder (id 0), not under `sub`. -/
theorem folder_upload_order_spec :
    (∀ (tree : LocalDir) (parentId startId : Nat),
      WellParented parentId (upload_folder_recursive tree parentId startId).events) ∧
    (upload_folder_recursive (.mk "root" [.mk "sub" [] ["b.txt"]] ["a.txt"]) 100 0).events =
      [.createFolder "root" 100 0, .createFolder "sub" 0 1,
       .uploadFile "a.txt" 0, .uploadFile "sub/b.txt" 1] := by
  constructor
  · intro tree parentId startId
    have h0 : UFInv parentId startId
        { events := [.createFolder tree.dname parentId startId],
          folderMap := [(".", startId)],
          nextId := startId + 1 } := by
      refine ⟨by simp [createdIds], ?_, ⟨Or.inl rfl, trivial⟩⟩
      intro pv hpv
      rcases List.mem_cons.mp hpv with hpv | hpv
      · subst hpv
        simp [createdIds]
      · exact absurd hpv (List.not_mem_nil pv)
    exact (foldl_processEntry_inv parentId startId (walk "." tree) _ h0).2.2
  · rfl

/-- C2: the recursive folder-upload traversal never consults the
cancellation flag.  On the tree with root containing `a.txt` and a
subdirectory `sub` containing `b.txt`, with the
flag already set, the traversal performs exactly the same four remote calls
as with the flag clear; the flag's only effect is suppressing the
completion box after the traversal has finished. -/
theorem folder_upload_cancel_ignored :
    (performFolderUpload true (.mk "root" [.mk "sub" [] ["b.txt"]] ["a.txt"]) 100 0).1.events =
      (performFolderUpload false (.mk "root" [.mk "sub" [] ["b.txt"]] ["a.txt"]) 100 0).1.events ∧
    (performFolderUpload true (.mk "root" [.mk "sub" [] ["b.txt"]] ["a.txt"]) 100 0).1.events.length = 4 ∧
    (performFolderUpload true (.mk "root" [.mk "sub" [] ["b.txt"]] ["a.txt"]) 100 0).2 = false :=
  ⟨rfl, rfl, rfl⟩

/-- The conversion inside `list_files` succeeds exactly on raw entries with
non-empty id and title, returning the evident record. -/
theorem rawToItem_toOption (pid : String) (f : RawEntry) :
    (rawToItem pid f).toOption =
      if f.id ≠ "" ∧ f.title ≠ "" then
        some { id := f.id, title := f.title, size := f.fileSize,
               modified_date := f.modifiedDate, mime_type := f.mimeType,
               is_folder := (f.mimeType = folderMimeType), parent_id := pid }
      else none := by
  unfold rawToItem mkFileItem
  by_cases h1 : f.id = "" <;> by_cases h2 : f.title = "" <;>
    simp [h1, h2, Except.toOption]

/-- Dropping the entries whose construction raises is filtering on
non-empty id and title. -/
theorem filterMap_rawToItem (pid : String) (raw : List RawEntry) :
    (raw.filterMap fun f => (rawToItem pid f).toOption) =
      ((raw.filter fun f => !(f.id == "") && !(f.title == "")).map fun f =>
        { id := f.id, title := f.title, size := f.fileSize,
          modified_date := f.modifiedDate, mime_type := f.mimeType,
          is_folder := (f.mimeType = folderMimeType), parent_id := pid }) := by
  induction raw with
  | nil => rfl
  | cons f rest ih =>
    rw [List.filterMap_cons, rawToItem_toOption, List.filter_cons]
    by_cases h1 : f.id = "" <;> by_cases h2 : f.title = "" <;> simp [h1, h2, ih]

/-- The sort comparator is transitive. -/
theorem fileSortLE_trans (a b c : FileItem) (hab : fileSortLE a b = true)
    (hbc : fileSortLE b c = true) : fileSortLE a c = true := by
  simp only [fileSortLE, decide_eq_true_eq] at hab hbc ⊢
  rcases hab with hab | ⟨hab1, hab2⟩ <;> rcases hbc with hbc | ⟨hbc1, hbc2⟩
  · exact Or.inl (lt_trans hab hbc)
  · exact Or.inl (by omega)
  · exact Or.inl (by omega)
  · exact Or.inr ⟨by omega, le_trans hab2 hbc2⟩

/-- The sort comparator is total. -/
theorem fileSortLE_total (a b : FileItem) :
    (fileSortLE a b || fileSortLE b a) = true := by
  simp only [fileSortLE, Bool.or_eq_true, decide_eq_true_eq]
  rcases Nat.lt_trichotomy (boolNat !a.is_folder) (boolNat !b.is_folder) with h | h | h
  · exact Or.inl (Or.inl h)
  · rcases le_total a.title.toLower b.title.toLower with ht | ht
    · exact Or.inl (Or.inr ⟨h, ht⟩)
    · exact Or.inr (Or.inr ⟨h.symm, ht⟩)
  · exact Or.inr (Or.inl h)

/-- C10: `list_files` returns a permutation of the converted valid raw
entries (an entry with empty id or empty title is silently dropped, not an
error), ordered with every folder before every non-folder and, within each
of the two groups, by case-insensitive title. -/
theorem list_files_spec (pid : String) (raw : List RawEntry) :
    (list_files pid raw).Perm
      ((raw.filter fun f => !(f.id == "") && !(f.title == "")).map fun f =>
        { id := f.id, title := f.title, size := f.fileSize,
          modified_date := f.modifiedDate, mime_type := f.mimeType,
          is_folder := (f.mimeType = folderMimeType), parent_id := pid }) ∧
    (list_files pid raw).Pairwise fun a b =>
      (b.is_folder = true → a.is_folder = true) ∧
      (a.is_folder = b.is_folder → a.title.toLower ≤ b.title.toLower) := by
  constructor
  · unfold list_files
    rw [filterMap_rawToItem]
    exact List.mergeSort_perm _ _
  · unfold list_files
    refine (List.sorted_mergeSort fileSortLE_trans fileSortLE_total _).imp ?_
    intro a b hab
    simp only [fileSortLE, decide_eq_true_eq] at hab
    constructor
    · intro hbf
      rcases hab with h | ⟨h1, -⟩
      · cases ha : a.is_folder <;> simp_all [boolNat]
      · cases ha : a.is_folder <;> simp_all [boolNat]
    · intro heq
      rcases hab with h | ⟨-, h2⟩
      · rw [heq] at h
        exact absurd h (lt_irrefl _)
      · exact h2

end FileSharing
